import Mathlib

/-!
Verification of the FedWatch core: the Indeed job-trend scraper
(src/indeed_scraper.py) and the macro health scorer of the API backend
(src/api.py).  Scores are modelled over the rationals (Python floats are
used only on small decimal constants here, where arithmetic is exact),
job counts over the naturals, and rendered markup as a flat list of
elements carrying tag, id, css class and stripped text.
-/

/-- Banker rounding of a rational to the nearest integer, ties to the even
neighbour — the semantics of the builtin `round` in Python 3.
`n` is the floor and `f` the fractional part. -/
def roundHalfEven (y : ℚ) : ℤ :=
  if y - ⌊y⌋ < 1/2 then ⌊y⌋
  else if 1/2 < y - ⌊y⌋ then ⌊y⌋ + 1
  else if ⌊y⌋ % 2 = 0 then ⌊y⌋ else ⌊y⌋ + 1

/-- `round(x, 1)` of Python: round to one decimal place. -/
def round1 (x : ℚ) : ℚ := (roundHalfEven (x * 10) : ℚ) / 10

/-! ## Job-Market Scorer (`IndeedScraper.calculate_health_score`) -/

/-- The fixed economic-significance weight table of
`calculate_health_score` (src/indeed_scraper.py lines 97-104). -/
def weights : List (String × ℚ) :=
  [("tech", 0.25),
   ("manufacturing", 0.20),
   ("retail", 0.20),
   ("healthcare", 0.20),
   ("finance", 0.10),
   ("general", 0.05)]

/-- Association-list lookup, the model of Python dict indexing
(`trends[category]`); `isSome` models the membership test
(`category in trends`). -/
def lookupKey (k : String) : List (String × α) → Option α
  | [] => none
  | p :: rest => if p.1 = k then some p.2 else lookupKey k rest

/-- `max(t.get('count', 0) for t in trends.values())` — the maximum count
over the snapshot.  `foldl Nat.max 0` agrees with the builtin `max` of
Python on every non-empty list of non-negative counts (and the code only
evaluates it on non-empty `trends`). -/
def maxCount (trends : List (String × Nat)) : Nat :=
  (trends.map Prod.snd).foldl max 0

/-- The scoring loop of `calculate_health_score` (lines 111-116):
`for category, weight in weights.items(): if category in trends:
score += ((count / max_count) * 100) * weight`. -/
def scoreFold (trends : List (String × Nat)) (max_count : Nat) (acc : ℚ) :
    List (String × ℚ) → ℚ
  | [] => acc
  | cw :: rest =>
      match lookupKey cw.1 trends with
      | some count =>
          scoreFold trends max_count
            (acc + ((count : ℚ) / (max_count : ℚ)) * 100 * cw.2) rest
      | none => scoreFold trends max_count acc rest

/-- `IndeedScraper.calculate_health_score` (src/indeed_scraper.py lines
91-118).  A snapshot is a mapping from category name to the observed
count (the `count` field of the stored per-category dict). -/
def calculate_health_score (trends : List (String × Nat)) : ℚ :=
  if trends = [] then 50
  else if maxCount trends = 0 then 50
  else round1 (scoreFold trends (maxCount trends) 0 weights)

/-- The formula of the claim, written from the words of the spec: the sum
over every category of the weight table of `((count / maxCount) * 100) *
weight` when the category is present in the snapshot, and `0` when it is
absent (the weight is forfeited, not redistributed). -/
def weightedSumSpec (trends : List (String × Nat)) (m : Nat)
    (w : List (String × ℚ)) : ℚ :=
  (w.map (fun cw =>
    match lookupKey cw.1 trends with
    | some count => ((count : ℚ) / (m : ℚ)) * 100 * cw.2
    | none => 0)).sum

/-! ## Macro Health Scorer (`get_health` of src/api.py) -/

/-- The score computation of the `/api/v1/health` endpoint
(src/api.py lines 155-167): start at 100, apply the asymmetric
unemployment penalty, subtract the symmetric inflation penalty, clamp to
[0, 100]. -/
def get_health_score (unemployment inflation : ℚ) : ℚ :=
  let score : ℚ := 100
  let score :=
    if unemployment > 5 then score - (unemployment - 5) * 10
    else if unemployment < 3.5 then score - (3.5 - unemployment) * 5
    else score
  let score := score - |inflation - 2.0| * 10
  max 0 (min 100 score)

/-- The unemployment penalty as the spec words it. -/
def unemploymentPenaltySpec (u : ℚ) : ℚ :=
  if u > 5.0 then (u - 5.0) * 10
  else if u < 3.5 then (3.5 - u) * 5
  else 0

/-- The macro score as the spec words it: 100 minus both penalties,
clamped to [0, 100]. -/
def macroScoreSpec (u i : ℚ) : ℚ :=
  max 0 (min 100 (100 - unemploymentPenaltySpec u - |i - 2.0| * 10))

/-- The qualitative rating of src/api.py line 169:
`"healthy" if score >= 70 else "cautious" if score >= 50 else
"concerning"`. -/
def macroRating (score : ℚ) : String :=
  if score ≥ 70 then "healthy"
  else if score ≥ 50 then "cautious"
  else "concerning"

/-! ## Category table and query composition (`get_trend`) -/

/-- `IndeedScraper.JOB_CATEGORIES` (src/indeed_scraper.py lines 21-28). -/
def JOB_CATEGORIES : List (String × List String) :=
  [("tech", ["software engineer", "data scientist", "developer", "IT"]),
   ("retail", ["retail", "store associate", "cashier", "sales associate"]),
   ("manufacturing", ["manufacturing", "factory", "warehouse", "production"]),
   ("healthcare", ["nurse", "medical", "healthcare", "hospital"]),
   ("finance", ["finance", "accountant", "analyst", "banking"]),
   ("general", ["full time", "part time", "employment"])]

/-- `" OR ".join(phrases)` of Python. -/
def joinOR : List String → String
  | [] => ""
  | [k] => k
  | k :: rest => k ++ " OR " ++ joinOR rest

/-- The query string composed by `get_trend` (src/indeed_scraper.py line
77): `" OR ".join(self.JOB_CATEGORIES.get(category, [category]))`. -/
def get_trend_keywords (category : String) : String :=
  joinOR ((lookupKey category JOB_CATEGORIES).getD [category])

/-! ## Count Extractor (`IndeedScraper.get_job_count`, lines 44-73)

Rendered markup is modelled as a flat list of elements in document
order; each carries its tag, its id attribute, its css class and its
stripped text (the result of `get_text(strip=True)`).  `soup.find(tag,
attrs)` returns the first element matching the tag and the attribute. -/

structure Element where
  tag : String
  idAttr : Option String
  cssClass : Option String
  text : String
deriving DecidableEq

/-- `soup.find(t, \x7b'id': i\x7d)`: first element with the tag and id. -/
def findById (t i : String) : List Element → Option Element
  | [] => none
  | e :: rest =>
      if e.tag = t ∧ e.idAttr = some i then some e else findById t i rest

/-- `soup.find(t, \x7b'class': c\x7d)`: first element with the tag and
css class. -/
def findByClass (t c : String) : List Element → Option Element
  | [] => none
  | e :: rest =>
      if e.tag = t ∧ e.cssClass = some c then some e else findByClass t c rest

/-- The character class `[\d,]` of the count pattern. -/
def isDigitComma (c : Char) : Bool := c.isDigit || c = ','

/-- Match of the regular expression `of\s+([\d,]+)\s+jobs` anchored at the
head of the character list, returning the captured group.  Because the
classes `\s` and `[\d,]` are disjoint from each other and from the
letter j, the greedy maximal-munch reading used here coincides with the
backtracking semantics of `re`.  `\s` is modelled by
`Char.isWhitespace` (space, tab, carriage return, line feed). -/
def matchCountAt (cs : List Char) : Option (List Char) :=
  match cs with
  | 'o' :: 'f' :: rest =>
      let ws1 := rest.takeWhile Char.isWhitespace
      if ws1 = [] then none
      else
        let r1 := rest.dropWhile Char.isWhitespace
        let grp := r1.takeWhile isDigitComma
        if grp = [] then none
        else
          let r2 := r1.dropWhile isDigitComma
          let ws2 := r2.takeWhile Char.isWhitespace
          if ws2 = [] then none
          else
            let r3 := r2.dropWhile Char.isWhitespace
            if r3.take 4 = ['j', 'o', 'b', 's'] then some grp else none
  | _ => none

/-- `re.search(r'of\s+([\d,]+)\s+jobs', text)`: the leftmost match wins. -/
def searchCountPattern : List Char → Option (List Char)
  | [] => none
  | c :: rest =>
      match matchCountAt (c :: rest) with
      | some g => some g
      | none => searchCountPattern rest

/-- `int(group)` on the digits of the group. -/
def digitsToNat (ds : List Char) : Nat :=
  ds.foldl (fun n c => n * 10 + (c.toNat - 48)) 0

/-- `int(match.group(1).replace(',', ''))`: the group consists of digits
and commas; removing the commas leaves its digits, and `int` on the
result succeeds exactly when at least one digit remains (`int('')`
raises `ValueError`). -/
def parseCountGroup (g : List Char) : Option Nat :=
  let ds := g.filter Char.isDigit
  if ds = [] then none else some (digitsToNat ds)

/-- The fallback strategy of lines 65-68: find the first
`span.mat-text` element and read its text.  The source reads the text
but never parses it and never returns a count from this branch, so the
strategy yields no integer on any markup. -/
def extractFallback (m : List Element) : Option Nat :=
  match findByClass "span" "mat-text" m with
  | some _ => none
  | none => none

/-- The count extraction of `get_job_count` on an already fetched body
(lines 49-68 together with the surrounding `try`): find the
`div#searchCount` element, search its text for the count pattern, parse
the group.  A group that fails to parse raises `ValueError`, which the
`except` swallows into a `None` return (skipping the fallback); a
missing element or a failed search falls through to the fallback
strategy. -/
def extract (m : List Element) : Option Nat :=
  match findById "div" "searchCount" m with
  | some el =>
      match searchCountPattern el.text.toList with
      | some g =>
          match parseCountGroup g with
          | some n => some n
          | none => none
      | none => extractFallback m
  | none => extractFallback m

/-- The characters of the count phrase `of 1,234 jobs` of the spec
examples. -/
def phraseChars : List Char := "of 1,234 jobs".toList

/-- The outcome of the HTTP GET issued by `get_job_count`: either a
transport failure (connection error, timeout, or `raise_for_status` on
a non-success status — all raised and caught by the `except`) or a
successfully retrieved body. -/
inductive HttpOutcome where
  | fetchError : HttpOutcome
  | success : List Element → HttpOutcome

/-- The dict returned by `get_job_count` on success: keywords, count,
location, capture timestamp. -/
structure RawResult where
  keywords : String
  count : Nat
  location : String
  timestamp : Nat
deriving DecidableEq

/-- `IndeedScraper.get_job_count` (lines 36-73) given the outcome of its
network request and the current clock (`datetime.utcnow()`), modelled as
explicit inputs: a transport failure is caught and yields `None`; a
retrieved body goes through the count extraction, and a successful
extraction is packaged with the query echo and the timestamp. -/
def get_job_count (keywords location : String) (now : Nat) :
    HttpOutcome → Option RawResult
  | .fetchError => none
  | .success m =>
      match extract m with
      | some n => some ⟨keywords, n, location, now⟩
      | none => none

/-- The count carried by an Optional result: `None` is the Unknown
count. -/
def resultCount : Option RawResult → Option Nat
  | none => none
  | some r => some r.count

/-- `IndeedScraper.get_all_trends` (lines 80-89) with the per-category
fetch (`get_trend` and its network round trip) abstracted as a function
from category name to its Optional result on this run: iterate the
configured categories in order and store only the successful results. -/
def get_all_trends (fetch : String → Option RawResult) :
    List (String × RawResult) :=
  (JOB_CATEGORIES.map Prod.fst).foldl
    (fun results category =>
      match fetch category with
      | some r => results ++ [(category, r)]
      | none => results) []

/-! ## Theorems -/

/-! Helper lemmas, shared across the claim theorems. -/

theorem foldl_max_eq_zero (l : List Nat) :
    ∀ a : Nat, l.foldl max a = 0 ↔ a = 0 ∧ ∀ x ∈ l, x = 0 := by
  induction l with
  | nil => simp
  | cons b l ih =>
      intro a
      simp only [List.foldl_cons, ih, Nat.max_eq_zero_iff, List.mem_cons]
      constructor
      · rintro ⟨⟨ha, hb⟩, hl⟩
        exact ⟨ha, fun x hx => hx.elim (fun h => h ▸ hb) (hl x)⟩
      · rintro ⟨ha, h⟩
        exact ⟨⟨ha, h b (Or.inl rfl)⟩, fun x hx => h x (Or.inr hx)⟩

theorem foldl_max_ge (l : List Nat) :
    ∀ a : Nat, a ≤ l.foldl max a ∧ ∀ x ∈ l, x ≤ l.foldl max a := by
  induction l with
  | nil => simp
  | cons b l ih =>
      intro a
      simp only [List.foldl_cons]
      have h := ih (max a b)
      refine ⟨le_trans (le_max_left a b) h.1, ?_⟩
      intro x hx
      rcases List.mem_cons.mp hx with rfl | h1
      · exact le_trans (le_max_right a x) h.1
      · exact h.2 x h1

theorem count_le_maxCount (trends : List (String × Nat)) :
    ∀ p ∈ trends, p.2 ≤ maxCount trends := by
  intro p hp
  exact (foldl_max_ge (trends.map Prod.snd) 0).2 p.2
    (List.mem_map_of_mem Prod.snd hp)

theorem maxCount_eq_zero (trends : List (String × Nat)) :
    maxCount trends = 0 ↔ ∀ p ∈ trends, p.2 = 0 := by
  unfold maxCount
  rw [foldl_max_eq_zero]
  simp only [true_and, List.forall_mem_map]

theorem lookupKey_mem {α : Type} {k : String} {v : α} :
    ∀ {t : List (String × α)}, lookupKey k t = some v → (k, v) ∈ t := by
  intro t
  induction t with
  | nil => intro h; simp [lookupKey] at h
  | cons p rest ih =>
      intro h
      obtain ⟨a, b⟩ := p
      by_cases hpk : a = k
      · simp only [lookupKey, hpk, if_pos] at h
        injection h with hv
        subst hpk; subst hv
        exact List.mem_cons_self _ _
      · simp only [lookupKey, hpk, if_neg, ite_false] at h
        exact List.mem_cons_of_mem _ (ih h)

theorem weightedSumSpec_cons (trends : List (String × Nat)) (m : Nat)
    (cw : String × ℚ) (rest : List (String × ℚ)) :
    weightedSumSpec trends m (cw :: rest) =
      (match lookupKey cw.1 trends with
       | some count => ((count : ℚ) / (m : ℚ)) * 100 * cw.2
       | none => 0) + weightedSumSpec trends m rest := by
  simp [weightedSumSpec]

theorem scoreFold_eq_weightedSum (trends : List (String × Nat)) (m : Nat) :
    ∀ (w : List (String × ℚ)) (acc : ℚ),
      scoreFold trends m acc w = acc + weightedSumSpec trends m w := by
  intro w
  induction w with
  | nil => intro acc; simp [scoreFold, weightedSumSpec]
  | cons cw rest ih =>
      intro acc
      rw [weightedSumSpec_cons]
      cases h : lookupKey cw.1 trends with
      | some c =>
          simp only [scoreFold, h]
          rw [ih]
          ring
      | none =>
          simp only [scoreFold, h]
          rw [ih]
          ring

theorem scoreFold_bounds (trends : List (String × Nat)) (m : Nat)
    (hm : 0 < m) (hub : ∀ p ∈ trends, p.2 ≤ m) :
    ∀ (w : List (String × ℚ)) (acc : ℚ), (∀ cw ∈ w, 0 ≤ cw.2) →
      acc ≤ scoreFold trends m acc w ∧
      scoreFold trends m acc w ≤ acc + 100 * (w.map Prod.snd).sum := by
  intro w
  induction w with
  | nil => intro acc _; simp [scoreFold]
  | cons cw rest ih =>
      intro acc hw
      have hw0 : 0 ≤ cw.2 := hw cw (List.mem_cons_self _ _)
      have hwr : ∀ q ∈ rest, 0 ≤ q.2 :=
        fun q hq => hw q (List.mem_cons_of_mem _ hq)
      cases h : lookupKey cw.1 trends with
      | none =>
          simp only [scoreFold, h]
          have hr := ih acc hwr
          refine ⟨hr.1, ?_⟩
          simp only [List.map_cons, List.sum_cons]
          have := hr.2
          linarith
      | some c =>
          have hmq : (0 : ℚ) < (m : ℚ) := by exact_mod_cast hm
          have hterm0 : 0 ≤ ((c : ℚ) / (m : ℚ)) * 100 * cw.2 := by
            apply mul_nonneg _ hw0
            apply mul_nonneg _ (by norm_num)
            exact div_nonneg (Nat.cast_nonneg c) (le_of_lt hmq)
          have hc : (c : ℚ) ≤ (m : ℚ) := by
            exact_mod_cast hub _ (lookupKey_mem h)
          have hdiv : (c : ℚ) / (m : ℚ) ≤ 1 :=
            div_le_one_of_le₀ hc (le_of_lt hmq)
          have h100 : (c : ℚ) / (m : ℚ) * 100 ≤ 1 * 100 :=
            mul_le_mul_of_nonneg_right hdiv (by norm_num)
          have htermle : (c : ℚ) / (m : ℚ) * 100 * cw.2 ≤ 100 * cw.2 := by
            have := mul_le_mul_of_nonneg_right h100 hw0
            linarith
          simp only [scoreFold, h]
          have hr := ih (acc + ((c : ℚ) / (m : ℚ)) * 100 * cw.2) hwr
          constructor
          · linarith [hr.1]
          · simp only [List.map_cons, List.sum_cons]
            have := hr.2
            linarith

theorem roundHalfEven_near (y : ℚ) :
    y - 1/2 ≤ (roundHalfEven y : ℚ) ∧ (roundHalfEven y : ℚ) ≤ y + 1/2 := by
  unfold roundHalfEven
  have h1 : ((⌊y⌋ : ℤ) : ℚ) ≤ y := Int.floor_le y
  have h2 : y < (⌊y⌋ : ℚ) + 1 := Int.lt_floor_add_one y
  split_ifs with hf1 hf2 hev
  · constructor <;> linarith
  · push_cast
    constructor <;> linarith
  · constructor <;> linarith
  · push_cast
    constructor <;> linarith

theorem round1_bounds (x : ℚ) (h0 : 0 ≤ x) (h100 : x ≤ 100) :
    0 ≤ round1 x ∧ round1 x ≤ 100 := by
  unfold round1
  obtain ⟨hl, hu⟩ := roundHalfEven_near (x * 10)
  have hz : (0 : ℤ) ≤ roundHalfEven (x * 10) := by
    by_contra hneg
    push_neg at hneg
    have h1 : roundHalfEven (x * 10) + 1 ≤ 0 := Int.lt_iff_add_one_le.mp hneg
    have h2 : (roundHalfEven (x * 10) : ℚ) + 1 ≤ 0 := by exact_mod_cast h1
    linarith
  have hle : roundHalfEven (x * 10) ≤ 1000 := by
    by_contra hgt
    push_neg at hgt
    have h1 : (1000 : ℤ) + 1 ≤ roundHalfEven (x * 10) :=
      Int.lt_iff_add_one_le.mp hgt
    have h2 : ((1000 : ℚ)) + 1 ≤ (roundHalfEven (x * 10) : ℚ) := by
      exact_mod_cast h1
    linarith
  have hzq : (0 : ℚ) ≤ (roundHalfEven (x * 10) : ℚ) := by exact_mod_cast hz
  have hleq : (roundHalfEven (x * 10) : ℚ) ≤ 1000 := by exact_mod_cast hle
  constructor
  · exact div_nonneg hzq (by norm_num)
  · rw [div_le_iff₀ (by norm_num : (0 : ℚ) < 10)]
    linarith

/-- C1: for every non-empty snapshot with a positive maximum count, the
job-market score is the rounded weighted sum of the max-normalized
counts over the categories present in both the snapshot and the weight
table; absent categories contribute 0 and keep their weight forfeited. -/
theorem health_score_formula (trends : List (String × Nat))
    (hne : trends ≠ []) (hpos : 0 < maxCount trends) :
    calculate_health_score trends =
      round1 (weightedSumSpec trends (maxCount trends) weights) := by
  unfold calculate_health_score
  rw [if_neg hne, if_neg (Nat.pos_iff_ne_zero.mp hpos)]
  rw [scoreFold_eq_weightedSum, zero_add]

/-- Witness for C1 on the two-category snapshot of the spec examples. -/
theorem health_score_formula_witness :
    calculate_health_score [("tech", 100), ("retail", 50)] =
      round1 (weightedSumSpec [("tech", 100), ("retail", 50)]
        (maxCount [("tech", 100), ("retail", 50)]) weights) :=
  health_score_formula _ (by decide) (by decide)

/-- C2: an empty snapshot, or one in which every observed count is 0,
scores exactly 50; and whenever the division branch is reached (the
snapshot is non-empty and not all-zero) the divisor `maxCount` is
positive, so no division by zero ever occurs. -/
theorem health_score_neutral (trends : List (String × Nat)) :
    ((trends = [] ∨ ∀ p ∈ trends, p.2 = 0) →
      calculate_health_score trends = 50) ∧
    ((trends ≠ [] ∧ ¬ ∀ p ∈ trends, p.2 = 0) → 0 < maxCount trends) := by
  constructor
  · rintro (h | h)
    · simp [calculate_health_score, h]
    · have hz : maxCount trends = 0 := (maxCount_eq_zero trends).mpr h
      rcases eq_or_ne trends [] with he | he
      · simp [calculate_health_score, he]
      · simp [calculate_health_score, he, hz]
  · rintro ⟨hne, hnz⟩
    rcases Nat.eq_zero_or_pos (maxCount trends) with h0 | h0
    · exact absurd ((maxCount_eq_zero trends).mp h0) hnz
    · exact h0

/-- Witness for C2: an all-zero snapshot scores 50 and a non-zero
snapshot has a positive maximum. -/
theorem health_score_neutral_witness :
    calculate_health_score [("tech", 0), ("retail", 0)] = 50 ∧
    0 < maxCount [("tech", 7)] :=
  ⟨(health_score_neutral _).1 (Or.inr (by decide)),
   (health_score_neutral _).2 ⟨by decide, by decide⟩⟩

/-- C8: for every snapshot of (non-negative) counts the job-market score
lies in the interval [0, 100]: the configured weights sum to 1, each
max-normalized count lies in [0, 100], and rounding to one decimal
cannot leave the interval. -/
theorem health_score_in_range (trends : List (String × Nat)) :
    0 ≤ calculate_health_score trends ∧
      calculate_health_score trends ≤ 100 := by
  unfold calculate_health_score
  split_ifs with h1 h2
  · norm_num
  · norm_num
  · have hm : 0 < maxCount trends := Nat.pos_of_ne_zero h2
    have hub := count_le_maxCount trends
    have hwpos : ∀ cw ∈ weights, 0 ≤ cw.2 := by
      intro cw hcw
      simp only [weights, List.mem_cons, List.not_mem_nil, or_false] at hcw
      rcases hcw with h | h | h | h | h | h <;> subst h <;> norm_num
    have hb := scoreFold_bounds trends (maxCount trends) hm hub weights 0 hwpos
    have hsum : (weights.map Prod.snd).sum = 1 := by
      simp [weights]
      norm_num
    rw [hsum] at hb
    exact round1_bounds _ hb.1 (by linarith [hb.2])

/-- C3: for every pair of unemployment and inflation rates, the score
computed by the health endpoint equals the specified formula: start at
100, subtract the asymmetric unemployment penalty, subtract the
symmetric inflation penalty, clamp to [0, 100]. -/
theorem macro_score_formula (u i : ℚ) :
    get_health_score u i = macroScoreSpec u i := by
  unfold get_health_score macroScoreSpec unemploymentPenaltySpec
  norm_num
  split_ifs <;> ring_nf

/-- C4: the qualitative rating is healthy at score at least 70, cautious
at score in [50, 70), concerning below 50; the two boundary examples of
the spec evaluate as stated. -/
theorem macro_rating_thresholds :
    (∀ s : ℚ,
      (70 ≤ s → macroRating s = "healthy") ∧
      (50 ≤ s → s < 70 → macroRating s = "cautious") ∧
      (s < 50 → macroRating s = "concerning")) ∧
    get_health_score 7 2 = 80 ∧
    macroRating (get_health_score 7 2) = "healthy" ∧
    get_health_score 7 6 = 40 ∧
    macroRating (get_health_score 7 6) = "concerning" := by
  have h80 : get_health_score 7 2 = 80 := by
    unfold get_health_score; norm_num
  have h40 : get_health_score 7 6 = 40 := by
    unfold get_health_score; norm_num
  refine ⟨fun s => ⟨?_, ?_, ?_⟩, h80, ?_, h40, ?_⟩
  · intro h; unfold macroRating
    rw [if_pos (by linarith)]
  · intro h1 h2; unfold macroRating
    rw [if_neg (by linarith), if_pos (by linarith)]
  · intro h; unfold macroRating
    rw [if_neg (by linarith), if_neg (by linarith)]
  · rw [h80]; unfold macroRating; norm_num
  · rw [h40]; unfold macroRating; norm_num

/-- Witness for C4 at the concrete scores 80 and 40. -/
theorem macro_rating_thresholds_witness :
    macroRating 80 = "healthy" ∧ macroRating 55 = "cautious" ∧
    macroRating 40 = "concerning" :=
  ⟨(macro_rating_thresholds.1 80).1 (by norm_num),
   (macro_rating_thresholds.1 55).2.1 (by norm_num) (by norm_num),
   (macro_rating_thresholds.1 40).2.2 (by norm_num)⟩

/-- C6: the Category Fetcher degrades every failure to an Unknown count
instead of raising: a transport failure (connection error, timeout,
non-success status) yields the Unknown result, markup without a
recognisable count element or phrase yields the Unknown result, and a
matched numeric literal that fails to parse as an integer yields the
Unknown result as well. -/
theorem fetch_failures_degrade (kw loc : String) (now : Nat) :
    resultCount (get_job_count kw loc now .fetchError) = none ∧
    (∀ m : List Element, findById "div" "searchCount" m = none →
      resultCount (get_job_count kw loc now (.success m)) = none) ∧
    (∀ (m : List Element) (el : Element),
      findById "div" "searchCount" m = some el →
      searchCountPattern el.text.toList = none →
      resultCount (get_job_count kw loc now (.success m)) = none) ∧
    (∀ (m : List Element) (el : Element) (g : List Char),
      findById "div" "searchCount" m = some el →
      searchCountPattern el.text.toList = some g →
      parseCountGroup g = none →
      resultCount (get_job_count kw loc now (.success m)) = none) := by
  have hfb : ∀ m : List Element, extractFallback m = none := by
    intro m
    unfold extractFallback
    cases findByClass "span" "mat-text" m <;> rfl
  refine ⟨rfl, ?_, ?_, ?_⟩
  · intro m hfind
    have he : extract m = none := by
      simp only [extract, hfind, hfb]
    simp [get_job_count, he, resultCount]
  · intro m el hfind hsearch
    have he : extract m = none := by
      simp only [extract, hfind, hsearch, hfb]
    simp [get_job_count, he, resultCount]
  · intro m el g hfind hsearch hparse
    have he : extract m = none := by
      simp only [extract, hfind, hsearch, hparse]
    simp [get_job_count, he, resultCount]

/-- Witness for C6 at a transport failure, markup without the count
element, markup whose count element has no count phrase, and markup
whose matched literal is a bare comma (so `int` fails on it). -/
theorem fetch_failures_degrade_witness :
    resultCount (get_job_count "nurse" "us" 0 .fetchError) = none ∧
    resultCount (get_job_count "nurse" "us" 0
      (.success [⟨"p", none, none, "of 1,234 jobs"⟩])) = none ∧
    resultCount (get_job_count "nurse" "us" 0
      (.success [⟨"div", some "searchCount", none, "no results"⟩])) = none ∧
    resultCount (get_job_count "nurse" "us" 0
      (.success [⟨"div", some "searchCount", none, "of , jobs"⟩])) = none :=
  ⟨(fetch_failures_degrade "nurse" "us" 0).1,
   (fetch_failures_degrade "nurse" "us" 0).2.1 _ (by decide),
   (fetch_failures_degrade "nurse" "us" 0).2.2.1 _
     ⟨"div", some "searchCount", none, "no results"⟩ (by decide) (by decide),
   (fetch_failures_degrade "nurse" "us" 0).2.2.2 _
     ⟨"div", some "searchCount", none, "of , jobs"⟩ [','] (by decide)
     (by decide) (by decide)⟩

/-- `get_all_trends` unrolled: the fold over the categories collects, in
iteration order, exactly the categories whose fetch succeeded. -/
theorem get_all_trends_eq (fetch : String → Option RawResult) :
    get_all_trends fetch =
      (JOB_CATEGORIES.map Prod.fst).filterMap
        (fun c => (fetch c).map fun r => (c, r)) := by
  unfold get_all_trends
  generalize JOB_CATEGORIES.map Prod.fst = cats
  suffices h : ∀ (cats : List String) (acc : List (String × RawResult)),
      cats.foldl (fun results category =>
        match fetch category with
        | some r => results ++ [(category, r)]
        | none => results) acc
      = acc ++ cats.filterMap (fun c => (fetch c).map fun r => (c, r)) by
    simpa using h cats []
  intro cats
  induction cats with
  | nil => intro acc; simp
  | cons c cs ih =>
      intro acc
      simp only [List.foldl_cons, List.filterMap_cons]
      cases h : fetch c with
      | none => simp [h, ih]
      | some r => simp [h, ih]

/-- C7: a category whose fetch yields Unknown is omitted from the
snapshot produced by `get_all_trends` — it does not appear as a key at
all — and every entry that does appear carries the concrete result of a
successful fetch for its key. -/
theorem trends_omit_unknown (fetch : String → Option RawResult)
    (category : String) (r : RawResult) :
    ((category, r) ∈ get_all_trends fetch → fetch category = some r) ∧
    (fetch category = none →
      category ∉ (get_all_trends fetch).map Prod.fst) := by
  rw [get_all_trends_eq]
  constructor
  · intro hmem
    rcases List.mem_filterMap.mp hmem with ⟨c, _, hc⟩
    rcases Option.map_eq_some'.mp hc with ⟨a, ha, heq⟩
    obtain ⟨h1, h2⟩ := Prod.mk.injEq .. ▸ heq
    subst h1; subst h2
    exact ha
  · intro hnone hmem
    rcases List.mem_map.mp hmem with ⟨p, hp, hfst⟩
    rcases List.mem_filterMap.mp hp with ⟨c, _, hc⟩
    rcases Option.map_eq_some'.mp hc with ⟨a, ha, heq⟩
    have hc1 : c = p.1 := by rw [← heq]
    rw [hc1, hfst, hnone] at ha
    exact Option.noConfusion ha

/-- Witness for C7 under a run in which only the tech fetch succeeds:
its result is stored as fetched, and the failing retail category is
absent from the snapshot keys. -/
theorem trends_omit_unknown_witness :
    (fun c => if c = "tech" then some (RawResult.mk "kw" 120 "us" 0)
              else none) "tech" = some (RawResult.mk "kw" 120 "us" 0) ∧
    "retail" ∉ (get_all_trends
      (fun c => if c = "tech" then some (RawResult.mk "kw" 120 "us" 0)
                else none)).map Prod.fst :=
  ⟨(trends_omit_unknown
      (fun c => if c = "tech" then some (RawResult.mk "kw" 120 "us" 0)
                else none) "tech" (RawResult.mk "kw" 120 "us" 0)).1
      (by decide),
   (trends_omit_unknown
      (fun c => if c = "tech" then some (RawResult.mk "kw" 120 "us" 0)
                else none) "retail" (RawResult.mk "kw" 120 "us" 0)).2
      (by decide)⟩

/-- C9: the count produced by a run of `get_job_count` depends only on
the fetched markup, not on the clock: two runs against the same body
yield the same count, whatever their timestamps. -/
theorem count_extraction_deterministic
    (kw loc : String) (t₁ t₂ : Nat) (o : HttpOutcome) :
    resultCount (get_job_count kw loc t₁ o) =
      resultCount (get_job_count kw loc t₂ o) := by
  cases o with
  | fetchError => rfl
  | success m =>
      cases h : extract m <;> simp [get_job_count, resultCount, h]

/-- C10: a category name absent from the configured category table is
not rejected: the table lookup falls back to the singleton list holding
the name itself, so the composed query string is the category name. -/
theorem unknown_category_query (category : String)
    (h : lookupKey category JOB_CATEGORIES = none) :
    get_trend_keywords category = category := by
  unfold get_trend_keywords
  rw [h]
  rfl

/-- Witness for C10: the category plumbing is not in the table and its
query string is its own name. -/
theorem unknown_category_query_witness :
    lookupKey "plumbing" JOB_CATEGORIES = none ∧
    get_trend_keywords "plumbing" = "plumbing" :=
  ⟨by decide, unknown_category_query "plumbing" (by decide)⟩

/-- `re.search` returns the match at the first position at which the
pattern matches: if no earlier position matches and position `k` yields
the group `g`, the search yields `g`. -/
theorem searchCountPattern_first :
    ∀ (cs : List Char) (k : Nat) (g : List Char),
      (∀ j < k, matchCountAt (cs.drop j) = none) →
      matchCountAt (cs.drop k) = some g →
      searchCountPattern cs = some g := by
  intro cs
  induction cs with
  | nil =>
      intro k g _ hk
      rw [List.drop_nil] at hk
      exact absurd hk (by simp [matchCountAt])
  | cons c rest ih =>
      intro k g hj hk
      cases k with
      | zero =>
          rw [List.drop_zero] at hk
          simp only [searchCountPattern, hk]
      | succ k' =>
          have h0 : matchCountAt (c :: rest) = none := by
            have := hj 0 (Nat.succ_pos k')
            rwa [List.drop_zero] at this
          simp only [searchCountPattern, h0]
          apply ih k' g
          · intro j hjk
            have := hj (j + 1) (Nat.succ_lt_succ hjk)
            rwa [List.drop_succ_cons] at this
          · rwa [List.drop_succ_cons] at hk

/-- The count pattern matches at the head of `of 1,234 jobs` followed by
anything, capturing the group `1,234`. -/
theorem matchCountAt_phrase (post : List Char) :
    matchCountAt (phraseChars ++ post) = some ['1', ',', '2', '3', '4'] := by
  have h : phraseChars =
      ['o', 'f', ' ', '1', ',', '2', '3', '4', ' ', 'j', 'o', 'b', 's'] := by
    decide
  rw [h]
  simp [matchCountAt, List.takeWhile, List.dropWhile, List.take, isDigitComma]

/-- C5 counterexample: markup that contains the text `of 1,234 jobs` in
an element that is not the `searchCount` div is extracted to Unknown,
not to 1234, refuting the claim that every valid markup containing the
phrase yields 1234. -/
theorem extract_contained_phrase_counterexample :
    (Element.mk "p" none none "of 1,234 jobs").text = "of 1,234 jobs" ∧
    extract [Element.mk "p" none none "of 1,234 jobs"] = none ∧
    extract [Element.mk "p" none none "of 1,234 jobs"] ≠ some 1234 := by
  refine ⟨rfl, by decide, by decide⟩

/-- C5 (amended): the extractor tries the `of <N> jobs` phrasing inside
the `searchCount` div first and the `span.mat-text` fallback second,
the first strategy yielding a valid integer wins; markup whose
`searchCount` div text contains `of 1,234 jobs` at the first position
where the count pattern matches yields 1234; and when no strategy
matches the result is Unknown. -/
theorem count_extractor_strategies :
    (∀ (m : List Element) (el : Element) (pre post : List Char),
      findById "div" "searchCount" m = some el →
      el.text.toList = pre ++ (phraseChars ++ post) →
      (∀ j < pre.length, matchCountAt (el.text.toList.drop j) = none) →
      extract m = some 1234) ∧
    (∀ m : List Element, findById "div" "searchCount" m = none →
      extract m = none) ∧
    (∀ (m : List Element) (el : Element),
      findById "div" "searchCount" m = some el →
      searchCountPattern el.text.toList = none →
      extract m = none) := by
  have hfb : ∀ m : List Element, extractFallback m = none := by
    intro m
    unfold extractFallback
    cases findByClass "span" "mat-text" m <;> rfl
  refine ⟨?_, ?_, ?_⟩
  · intro m el pre post hfind htext hfirst
    have hdrop : el.text.toList.drop pre.length = phraseChars ++ post := by
      rw [htext]; exact List.drop_left pre (phraseChars ++ post)
    have hmatch : matchCountAt (el.text.toList.drop pre.length) =
        some ['1', ',', '2', '3', '4'] := by
      rw [hdrop]; exact matchCountAt_phrase post
    have hsearch : searchCountPattern el.text.toList =
        some ['1', ',', '2', '3', '4'] :=
      searchCountPattern_first el.text.toList pre.length _ hfirst hmatch
    have hparse : parseCountGroup ['1', ',', '2', '3', '4'] = some 1234 := by
      decide
    simp only [extract, hfind, hsearch, hparse]
  · intro m hfind
    simp only [extract, hfind, hfb]
  · intro m el hfind hsearch
    simp only [extract, hfind, hsearch, hfb]

/-- Witness for the amended C5 on the markup layout of the source
comment, `Page 1 of 1,234 jobs` inside the `searchCount` div. -/
theorem count_extractor_strategies_witness :
    extract [Element.mk "div" (some "searchCount") none
      "Page 1 of 1,234 jobs"] = some 1234 :=
  count_extractor_strategies.1 _
    (Element.mk "div" (some "searchCount") none "Page 1 of 1,234 jobs")
    "Page 1 ".toList [] (by decide) (by decide) (by decide)
